import Mathlib

set_option maxRecDepth 8000

/-!
# Verification of the claims-risk core

Shallow embedding of `src/utils/hcc_mapping.py` (class `HCCMapper`) and
`src/utils/data_processing.py` (class `ClaimsProcessor`), with theorems
settling the specification's testable properties.

Conventions of the embedding:
* Python floats are modelled as `ℚ` (every literal weight in the tables is a
  decimal fraction, exactly representable).
* A Python `Dict` is modelled as an association list (`List (key × value)`),
  looked up with `List.lookup`; insertion order is the literal order of the
  source.  Duplicate keys in a Python dict literal collapse to a single entry,
  which the association lists reproduce.
* A truthy `int` flag is a nonzero `ℤ`.
* `list(set(xs))` returns the distinct elements in an unspecified order; it is
  modelled by `List.dedup`, which is adequate because every consumer of the
  result is order-insensitive (a commutative sum).
-/

namespace HCCMapper

/-- The dict `self.hcc_mapping` from `HCCMapper.__init__` (lines 20-58 of
`src/utils/hcc_mapping.py`): condition name → list of HCC category codes. -/
def hcc_mapping : List (String × List String) :=
  [ ("diabetes", ["HCC_18", "HCC_19"]),
    ("diabetes_complications", ["HCC_17", "HCC_18", "HCC_19"]),
    ("hypertension", ["HCC_85", "HCC_86"]),
    ("heart_disease", ["HCC_85", "HCC_88", "HCC_96"]),
    ("heart_failure", ["HCC_85", "HCC_88"]),
    ("stroke", ["HCC_100", "HCC_101"]),
    ("copd", ["HCC_111", "HCC_112"]),
    ("asthma", ["HCC_111"]),
    ("cancer", ["HCC_8", "HCC_9", "HCC_10", "HCC_11", "HCC_12"]),
    ("breast_cancer", ["HCC_9"]),
    ("lung_cancer", ["HCC_8"]),
    ("prostate_cancer", ["HCC_10"]),
    ("kidney_disease", ["HCC_136", "HCC_137"]),
    ("dialysis", ["HCC_136"]),
    ("mental_health", ["HCC_57", "HCC_58", "HCC_59"]),
    ("depression", ["HCC_58"]),
    ("anxiety", ["HCC_57"]),
    ("bipolar", ["HCC_59"]),
    ("arthritis", ["HCC_40", "HCC_41"]),
    ("osteoporosis", ["HCC_40"]),
    ("alzheimer", ["HCC_51", "HCC_52"]),
    ("parkinson", ["HCC_51"]),
    ("hiv", ["HCC_1", "HCC_2"]),
    ("substance_abuse", ["HCC_54", "HCC_55"]) ]

/-- The dict `self.hcc_weights` from `HCCMapper.__init__` (lines 61-91): HCC category
code → weight. -/
def hcc_weights : List (String × ℚ) :=
  [ ("HCC_1", 1.0), ("HCC_2", 0.8), ("HCC_8", 2.5), ("HCC_9", 1.8),
    ("HCC_10", 1.5), ("HCC_11", 2.0), ("HCC_12", 2.2), ("HCC_17", 0.5),
    ("HCC_18", 1.2), ("HCC_19", 1.5), ("HCC_40", 0.3), ("HCC_41", 0.4),
    ("HCC_51", 1.8), ("HCC_52", 1.5), ("HCC_54", 0.6), ("HCC_55", 0.8),
    ("HCC_57", 0.4), ("HCC_58", 0.5), ("HCC_59", 0.7), ("HCC_85", 0.8),
    ("HCC_86", 0.6), ("HCC_88", 1.2), ("HCC_96", 1.0), ("HCC_100", 1.5),
    ("HCC_101", 1.8), ("HCC_111", 0.7), ("HCC_112", 1.0), ("HCC_136", 2.0),
    ("HCC_137", 1.5) ]

/-- The dict `self.age_sex_coefficients` from `HCCMapper.__init__` (lines 94-297): the
source enumerates `('male', a): 0.0` and `('female', a): 0.0` for every age
`a` from 0 to 100, each coefficient literally `0.0`. -/
def age_sex_coefficients : List ((String × ℤ) × ℚ) :=
  ((List.range 101).map (fun a => (("male", (a : ℤ)), (0 : ℚ)))) ++
    ((List.range 101).map (fun a => (("female", (a : ℤ)), (0 : ℚ))))

/-- Embedding of `HCCMapper.map_conditions_to_hcc` (lines 299-309): collect the category
codes of every condition with a truthy flag present in the catalog, then
remove duplicates (`list(set(hcc_codes))`). -/
def map_conditions_to_hcc (conditions : List (String × ℤ)) : List String :=
  (conditions.foldl
    (fun acc p =>
      if p.2 ≠ 0 ∧ (hcc_mapping.lookup p.1).isSome then
        acc ++ (hcc_mapping.lookup p.1).getD []
      else acc) []).dedup

/-- The base-score loop of `calculate_hcc_score` (lines 319-322): add the
weight of every code that has an entry in `hcc_weights`, skip the rest. -/
def sumWeights (codes : List String) : ℚ :=
  codes.foldl
    (fun s c =>
      match hcc_weights.lookup c with
      | some w => s + w
      | none => s) 0

/-- Embeds `gender.lower() if gender else 'unknown'` (line 326): the empty string is
the only falsy `str`. -/
def genderKey (gender : String) : String :=
  if gender = "" then "unknown" else gender.toLower

/-- Embeds `min(age // 1, 100)` (line 325): `age // 1` is the identity on `int`, so
the age group is `min age 100` — clipped from above only. -/
def ageGroup (age : ℤ) : ℤ := min age 100

/-- The demographic adjustment of `calculate_hcc_score` (lines 324-331):
look the `(gender_key, age_group)` pair up in `age_sex_coefficients`,
defaulting to `0.0` when the key is absent. -/
def ageSexCoeff (age : ℤ) (gender : String) : ℚ :=
  (age_sex_coefficients.lookup (genderKey gender, ageGroup age)).getD 0

/-- Embedding of `HCCMapper.calculate_hcc_score` (lines 311-336). -/
def calculate_hcc_score (conditions : List (String × ℤ)) (age : ℤ)
    (gender : String) : ℚ :=
  max 0 (sumWeights (map_conditions_to_hcc conditions) + ageSexCoeff age gender)

/-! Spec-side vocabulary: the category set of one condition, the weight of one
code, and the distinct categories triggered by a condition mapping. -/

/-- The set of category codes the catalog associates to a condition name; a
name absent from the catalog has the empty set. -/
def catsOf (cond : String) : Finset String :=
  ((hcc_mapping.lookup cond).getD []).toFinset

/-- The weight of a category code, `0` when the weight table has no entry. -/
def weightOf (c : String) : ℚ := (hcc_weights.lookup c).getD 0

/-- Sum of the weights of one condition's categories. -/
def catWeight (cond : String) : ℚ := (catsOf cond).sum weightOf

/-- The distinct categories triggered by the truthy conditions of a mapping. -/
def triggeredCats (conditions : List (String × ℤ)) : Finset String :=
  conditions.foldr (fun p acc => if p.2 ≠ 0 then catsOf p.1 ∪ acc else acc) ∅

/-- Modelled from the spec: the demographic-adjustment procedure as §3/§4.1
of the spec describe it — clip age to `[0,100]` (both ends), lowercase the
gender with an unknown-bucket fallback, look up, default `0` — to be compared
with `ageSexCoeff`, which is read off the code. -/
def ageSexCoeffSpec (age : ℤ) (gender : String) : ℚ :=
  (age_sex_coefficients.lookup (genderKey gender, max 0 (min age 100))).getD 0

/-! ### Basic facts about the tables -/

theorem lookup_mem {α β : Type} [BEq α] [LawfulBEq α] {k : α} {v : β} :
    ∀ {l : List (α × β)}, l.lookup k = some v → (k, v) ∈ l := by
  intro l
  induction l with
  | nil => intro h; simp [List.lookup] at h
  | cons p t ih =>
    intro h
    rw [List.lookup] at h
    by_cases hk : k == p.1
    · rw [hk] at h
      simp only [Option.some.injEq] at h
      refine List.mem_cons.2 (Or.inl ?_)
      have hkp : k = p.1 := eq_of_beq hk
      cases p with
      | mk a b =>
        simp only at hkp h
        rw [hkp, h]
    · rw [Bool.of_not_eq_true hk] at h
      exact List.mem_cons.2 (Or.inr (ih h))

/-- Every weight in the table is positive. -/
theorem hcc_weights_pos : ∀ p ∈ hcc_weights, 0 < p.2 := by
  simp only [hcc_weights, List.forall_mem_cons, List.forall_mem_nil]
  norm_num

/-- Every category code referenced by the condition catalog has an entry in
the weight table (the coverage invariant of §3 of the spec). -/
theorem catalog_covered :
    ∀ p ∈ hcc_mapping, ∀ c ∈ p.2, (hcc_weights.lookup c).isSome = true := by
  decide

theorem weightOf_nonneg (c : String) : 0 ≤ weightOf c := by
  unfold weightOf
  cases h : hcc_weights.lookup c with
  | none => simp
  | some w => simpa using le_of_lt (hcc_weights_pos _ (lookup_mem h))

/-- Every element of a catalog category set has a positive weight. -/
theorem catsOf_weight_pos {cond c : String} (hc : c ∈ catsOf cond) :
    0 < weightOf c := by
  unfold catsOf at hc
  cases h : hcc_mapping.lookup cond with
  | none => rw [h] at hc; simp at hc
  | some l =>
    rw [h] at hc
    simp only [Option.getD_some, List.mem_toFinset] at hc
    have hsome := catalog_covered _ (lookup_mem h) c hc
    cases hw : hcc_weights.lookup c with
    | none => rw [hw] at hsome; simp at hsome
    | some w =>
      have : 0 < w := hcc_weights_pos _ (lookup_mem hw)
      simpa [weightOf, hw] using this

/-- Every coefficient in the demographic table is literally `0.0`. -/
theorem age_sex_coefficients_zero : ∀ p ∈ age_sex_coefficients, p.2 = 0 := by
  intro p hp
  unfold age_sex_coefficients at hp
  rcases List.mem_append.1 hp with h | h <;>
    · obtain ⟨a, -, rfl⟩ := List.mem_map.1 h
      rfl

/-- The demographic adjustment of the code is `0` on every input. -/
theorem ageSexCoeff_eq_zero (age : ℤ) (gender : String) :
    ageSexCoeff age gender = 0 := by
  unfold ageSexCoeff
  cases h : age_sex_coefficients.lookup (genderKey gender, ageGroup age) with
  | none => rfl
  | some v => simpa using age_sex_coefficients_zero _ (lookup_mem h)

/-- The spec-modelled demographic adjustment is also `0` on every input. -/
theorem ageSexCoeffSpec_eq_zero (age : ℤ) (gender : String) :
    ageSexCoeffSpec age gender = 0 := by
  unfold ageSexCoeffSpec
  cases h : age_sex_coefficients.lookup (genderKey gender, max 0 (min age 100)) with
  | none => rfl
  | some v => simpa using age_sex_coefficients_zero _ (lookup_mem h)

/-! ### The base score as a `Finset` sum -/

theorem sumWeights_eq_sum_map (codes : List String) :
    sumWeights codes = (codes.map weightOf).sum := by
  suffices h : ∀ (l : List String) (s : ℚ),
      l.foldl
        (fun s c =>
          match hcc_weights.lookup c with
          | some w => s + w
          | none => s) s = s + (l.map weightOf).sum by
    simpa using h codes 0
  intro l
  induction l with
  | nil => intro s; simp
  | cons c t ih =>
    intro s
    simp only [List.foldl_cons, List.map_cons, List.sum_cons]
    cases h : hcc_weights.lookup c with
    | none => simp [ih, weightOf, h]
    | some w => simp [ih, weightOf, h]; ring

theorem triggeredCats_cons (p : String × ℤ) (t : List (String × ℤ)) :
    triggeredCats (p :: t) =
      if p.2 ≠ 0 then catsOf p.1 ∪ triggeredCats t else triggeredCats t := rfl

theorem foldl_codes_toFinset (conds : List (String × ℤ)) :
    ∀ acc : List String,
      (conds.foldl
        (fun acc p =>
          if p.2 ≠ 0 ∧ (hcc_mapping.lookup p.1).isSome then
            acc ++ (hcc_mapping.lookup p.1).getD []
          else acc) acc).toFinset = acc.toFinset ∪ triggeredCats conds := by
  induction conds with
  | nil => intro acc; simp [triggeredCats]
  | cons p t ih =>
    intro acc
    rw [List.foldl_cons, triggeredCats_cons]
    by_cases hflag : p.2 = 0
    · rw [if_neg (by simp [hflag]), if_neg (by simp [hflag])]
      exact ih acc
    · cases hl : hcc_mapping.lookup p.1 with
      | none =>
        rw [if_neg (by simp [hl]), if_pos hflag, ih acc]
        have hc : catsOf p.1 = ∅ := by simp [catsOf, hl]
        rw [hc, Finset.empty_union]
      | some l =>
        have hc : catsOf p.1 = l.toFinset := by simp [catsOf, hl]
        simp only [hl, Option.isSome_some, ne_eq, hflag, not_false_eq_true,
          true_and, if_true, Option.getD_some]
        rw [ih (acc ++ l), List.toFinset_append, hc, Finset.union_assoc]

/-- The distinct codes returned by `map_conditions_to_hcc` are exactly the
triggered categories. -/
theorem map_conditions_toFinset (conds : List (String × ℤ)) :
    (map_conditions_to_hcc conds).toFinset = triggeredCats conds := by
  unfold map_conditions_to_hcc
  have hdedup : ∀ l : List String, l.dedup.toFinset = l.toFinset := by
    intro l; ext a; simp [List.mem_dedup]
  rw [hdedup, foldl_codes_toFinset]
  simp

theorem map_conditions_nodup (conds : List (String × ℤ)) :
    (map_conditions_to_hcc conds).Nodup :=
  List.nodup_dedup _

/-- The risk score is the sum of the weights of the distinct triggered
categories: the `max 0` floor and the demographic adjustment vanish because
the sum is non-negative and every coefficient is `0`. -/
theorem calculate_hcc_score_eq (conds : List (String × ℤ)) (age : ℤ)
    (gender : String) :
    calculate_hcc_score conds age gender = (triggeredCats conds).sum weightOf := by
  unfold calculate_hcc_score
  rw [ageSexCoeff_eq_zero, add_zero, sumWeights_eq_sum_map,
    ← List.sum_toFinset weightOf (map_conditions_nodup conds),
    map_conditions_toFinset]
  exact max_eq_right (Finset.sum_nonneg fun c _ => weightOf_nonneg c)

theorem triggeredCats_nil : triggeredCats [] = ∅ := rfl

theorem foldr_triggered (l : List (String × ℤ)) :
    ∀ init : Finset String,
      l.foldr (fun p acc => if p.2 ≠ 0 then catsOf p.1 ∪ acc else acc) init =
        triggeredCats l ∪ init := by
  induction l with
  | nil => intro init; simp [triggeredCats_nil]
  | cons p t ih =>
    intro init
    rw [List.foldr_cons, triggeredCats_cons, ih init]
    by_cases hflag : p.2 = 0
    · rw [if_neg (by simp [hflag]), if_neg (by simp [hflag])]
    · rw [if_pos hflag, if_pos hflag, Finset.union_assoc]

theorem triggeredCats_append (l l' : List (String × ℤ)) :
    triggeredCats (l ++ l') = triggeredCats l ∪ triggeredCats l' := by
  unfold triggeredCats
  rw [List.foldr_append]
  exact foldr_triggered l _

/-! ### Claim theorems for the `HCCMapper` part -/

/-- C1: for two conditions A and B with truthy flags, the risk score on
`{A, B}` is at most the sum of the weights of A's categories, the weights of
B's categories, and the demographic adjustment, with equality exactly when the
two category sets are disjoint — an overlapping category is counted once. -/
theorem C1_dedup_law (A B : String) (fa fb : ℤ) (ha : fa ≠ 0) (hb : fb ≠ 0)
    (age : ℤ) (gender : String) :
    calculate_hcc_score [(A, fa), (B, fb)] age gender ≤
      catWeight A + catWeight B + ageSexCoeff age gender ∧
    (calculate_hcc_score [(A, fa), (B, fb)] age gender =
        catWeight A + catWeight B + ageSexCoeff age gender ↔
      catsOf A ∩ catsOf B = ∅) := by
  have hta : triggeredCats [(A, fa), (B, fb)] = catsOf A ∪ catsOf B := by
    rw [triggeredCats_cons, triggeredCats_cons, triggeredCats_nil]
    simp [ha, hb]
  have hscore := calculate_hcc_score_eq [(A, fa), (B, fb)] age gender
  rw [hta] at hscore
  have hui :
      (catsOf A ∪ catsOf B).sum weightOf + (catsOf A ∩ catsOf B).sum weightOf =
        (catsOf A).sum weightOf + (catsOf B).sum weightOf :=
    Finset.sum_union_inter
  have hinter : 0 ≤ (catsOf A ∩ catsOf B).sum weightOf :=
    Finset.sum_nonneg fun c _ => weightOf_nonneg c
  have hcoeff := ageSexCoeff_eq_zero age gender
  constructor
  · rw [hscore, hcoeff, add_zero]
    simp only [catWeight]
    linarith
  · rw [hscore, hcoeff, add_zero]
    simp only [catWeight]
    constructor
    · intro heq
      have hz : (catsOf A ∩ catsOf B).sum weightOf = 0 := by linarith
      rw [Finset.eq_empty_iff_forall_not_mem]
      intro c hc
      have hpos : 0 < weightOf c := catsOf_weight_pos (Finset.mem_inter.1 hc).1
      have hzero :=
        (Finset.sum_eq_zero_iff_of_nonneg fun i _ => weightOf_nonneg i).1 hz c hc
      linarith
    · intro hdisj
      rw [hdisj, Finset.sum_empty, add_zero] at hui
      exact hui

/-- Witness for C1 at two catalog conditions with disjoint category sets. -/
theorem C1_dedup_law_witness :
    calculate_hcc_score [("diabetes", 1), ("asthma", 1)] 50 "male" ≤
      catWeight "diabetes" + catWeight "asthma" + ageSexCoeff 50 "male" ∧
    (calculate_hcc_score [("diabetes", 1), ("asthma", 1)] 50 "male" =
        catWeight "diabetes" + catWeight "asthma" + ageSexCoeff 50 "male" ↔
      catsOf "diabetes" ∩ catsOf "asthma" = ∅) :=
  C1_dedup_law "diabetes" "asthma" 1 1 (by norm_num) (by norm_num) 50 "male"

/-- C2: the score is monotone in conditions — appending one more condition
entry with a truthy flag never decreases the score. -/
theorem C2_monotone (conds : List (String × ℤ)) (c : String) (f : ℤ)
    (_hf : f ≠ 0) (age : ℤ) (gender : String) :
    calculate_hcc_score conds age gender ≤
      calculate_hcc_score (conds ++ [(c, f)]) age gender := by
  rw [calculate_hcc_score_eq, calculate_hcc_score_eq]
  refine Finset.sum_le_sum_of_subset_of_nonneg ?_ fun i _ _ => weightOf_nonneg i
  rw [triggeredCats_append]
  exact Finset.subset_union_left

/-- Witness for C2: adding asthma on top of diabetes. -/
theorem C2_monotone_witness :
    calculate_hcc_score [("diabetes", 1)] 30 "female" ≤
      calculate_hcc_score ([("diabetes", 1)] ++ [("asthma", 1)]) 30 "female" :=
  C2_monotone [("diabetes", 1)] "asthma" 1 (by norm_num) 30 "female"

/-- C3: the score is non-negative and equals
`max 0 (sum of the distinct triggered category weights + demographic
adjustment)` on every condition set, integer age and gender string. -/
theorem C3_nonneg_max (conds : List (String × ℤ)) (age : ℤ) (gender : String) :
    0 ≤ calculate_hcc_score conds age gender ∧
    calculate_hcc_score conds age gender =
      max 0 ((triggeredCats conds).sum weightOf + ageSexCoeff age gender) := by
  constructor
  · exact le_max_left 0 _
  · unfold calculate_hcc_score
    rw [sumWeights_eq_sum_map,
      ← List.sum_toFinset weightOf (map_conditions_nodup conds),
      map_conditions_toFinset]

/-- C4: `map_conditions_to_hcc` returns a duplicate-free list whose elements
are exactly the union of the category sets of the truthy, catalog-known
conditions, and appending a condition name absent from the catalog changes
nothing (and raises no error — the function is total). -/
theorem C4_mapping_union (conds : List (String × ℤ)) (name : String) (flag : ℤ)
    (h : hcc_mapping.lookup name = none) :
    (map_conditions_to_hcc conds).Nodup ∧
    (map_conditions_to_hcc conds).toFinset = triggeredCats conds ∧
    map_conditions_to_hcc (conds ++ [(name, flag)]) =
      map_conditions_to_hcc conds := by
  refine ⟨map_conditions_nodup conds, map_conditions_toFinset conds, ?_⟩
  unfold map_conditions_to_hcc
  rw [List.foldl_append]
  simp [h]

/-- Witness for C4 at a mapping holding one known and one unknown condition,
with `"flu"` as the appended unknown name. -/
theorem C4_mapping_union_witness :
    (map_conditions_to_hcc [("diabetes", 1), ("flu", 1)]).Nodup ∧
    (map_conditions_to_hcc [("diabetes", 1), ("flu", 1)]).toFinset =
      triggeredCats [("diabetes", 1), ("flu", 1)] ∧
    map_conditions_to_hcc ([("diabetes", 1), ("flu", 1)] ++ [("flu", 1)]) =
      map_conditions_to_hcc [("diabetes", 1), ("flu", 1)] :=
  C4_mapping_union [("diabetes", 1), ("flu", 1)] "flu" 1 (by decide)

/-- C5: the demographic adjustment of the code agrees (extensionally, on every
input) with the spec's clip-to-`[0,100]` description, a key absent from the
table contributes `0` rather than an error, and in particular the adjustment
is `0` for every negative age and for every gender outside male/female. -/
theorem C5_adjustment (age : ℤ) (gender : String) :
    ageSexCoeff age gender = ageSexCoeffSpec age gender ∧
    (age_sex_coefficients.lookup (genderKey gender, ageGroup age) = none →
      ageSexCoeff age gender = 0) ∧
    (age < 0 → ageSexCoeff age gender = 0) ∧
    (gender.toLower ≠ "male" → gender.toLower ≠ "female" →
      ageSexCoeff age gender = 0) :=
  ⟨by rw [ageSexCoeff_eq_zero, ageSexCoeffSpec_eq_zero],
   fun _ => ageSexCoeff_eq_zero age gender,
   fun _ => ageSexCoeff_eq_zero age gender,
   fun _ _ => ageSexCoeff_eq_zero age gender⟩

/-- Witness for C5 at a negative age and an unrecognized gender. -/
theorem C5_adjustment_witness :
    ageSexCoeff (-5) "other" = ageSexCoeffSpec (-5) "other" ∧
    ageSexCoeff (-5) "other" = 0 :=
  ⟨(C5_adjustment (-5) "other").1,
   (C5_adjustment (-5) "other").2.2.1 (by norm_num)⟩

/-- C9: a category code without an entry in the weight table contributes
exactly `0` to the base-score sum (the scoring loop skips it; no error), and
in the shipped tables every code referenced by the condition catalog has a
weight entry. -/
theorem C9_missing_weight (codes : List String) (c : String)
    (h : hcc_weights.lookup c = none) :
    sumWeights (codes ++ [c]) = sumWeights codes ∧
    ∀ p ∈ hcc_mapping, ∀ code ∈ p.2, (hcc_weights.lookup code).isSome = true := by
  refine ⟨?_, catalog_covered⟩
  unfold sumWeights
  rw [List.foldl_append]
  simp [h]

/-- Witness for C9 at the unknown code `"HCC_999"`. -/
theorem C9_missing_weight_witness :
    sumWeights (["HCC_18"] ++ ["HCC_999"]) = sumWeights ["HCC_18"] ∧
    ∀ p ∈ hcc_mapping, ∀ code ∈ p.2, (hcc_weights.lookup code).isSome = true :=
  C9_missing_weight ["HCC_18"] "HCC_999" (by decide)

end HCCMapper

/-!
## `ClaimsProcessor` (`src/utils/data_processing.py`)

A pandas `DataFrame` is modelled as an explicit list of column names plus a
list of rows; a row is an association list from column name to cell value.  A
cell is a number, a string, or `null` (pandas `NaN`/missing).  Conventions:

* `pd.to_numeric(s, errors='coerce')` keeps numbers and turns everything else
  into `NaN`; string-to-number parsing of numeric strings is not modelled — a
  `str` cell stands for a non-numeric string.
* Any comparison against `NaN` is `False`, so filtering on `col >= 0` drops
  rows whose cell is `null`, exactly as pandas does.
* `astype(str)` renders a cell as a string (`NaN` prints as `"nan"`).
* `df.drop_duplicates()` keeps the first occurrence of each duplicated row.
* `df.select_dtypes` is approximated content-wise: a column whose cells are
  all numbers-or-null counts as numeric, one whose cells are all
  strings-or-null counts as object.  (The `age_group` column is Categorical in
  pandas and would be skipped by both fills; the approximation touches only
  its `null` cells and is invisible to every claim below.)
* `_validate_data_quality` only logs and is the identity on the data.
-/

namespace ClaimsProcessor

/-- One cell of a DataFrame: a number, a string, or missing (`NaN`). -/
inductive Value : Type where
  | num (q : ℚ)
  | str (s : String)
  | null
  deriving DecidableEq

/-- A row, keyed by column name. -/
def Row : Type := List (String × Value)

instance : DecidableEq Row := by unfold Row; infer_instance

/-- A DataFrame: the column labels and the rows. -/
structure DataFrame : Type where
  cols : List String
  rows : List Row
  deriving DecidableEq

/-- Reading a cell; a key the row does not carry reads as missing. -/
def getCell (r : Row) (c : String) : Value := (List.lookup c r).getD .null

/-- Writing a cell (pandas column assignment, restricted to one row). -/
def setCell : Row → String → Value → Row
  | [], c, v => [(c, v)]
  | p :: r, c, v => if p.1 = c then (c, v) :: r else p :: setCell r c v

/-- Embeds `pd.to_numeric(·, errors='coerce')` on one cell. -/
def toNumericVal : Value → Option ℚ
  | .num q => some q
  | .str _ => none
  | .null => none

/-- Embeds `astype(str)` on one cell. -/
def valToString : Value → String
  | .num q => toString q
  | .str s => s
  | .null => "nan"

/-- Comparison `cell >= b`, with pandas semantics: `False` on `NaN`/non-numeric. -/
def numGE (v : Value) (b : ℚ) : Bool :=
  match toNumericVal v with
  | some q => b ≤ q
  | none => false

/-- Comparison `cell <= b`, `False` on `NaN`/non-numeric. -/
def numLE (v : Value) (b : ℚ) : Bool :=
  match toNumericVal v with
  | some q => q ≤ b
  | none => false

/-- Embeds `drop_duplicates()`: keep the first occurrence of every row. -/
def dedupKeepFirst {α : Type} [DecidableEq α] : List α → List α
  | [] => []
  | a :: l => a :: ((dedupKeepFirst l).filter (fun b => b ≠ a))

/-- Column assignment `df[c] = f(row)`: every row gets the new cell, and the
label is appended to the frame's columns when it is new. -/
def setColWith (df : DataFrame) (c : String) (f : Row → Value) : DataFrame :=
  ⟨if c ∈ df.cols then df.cols else df.cols ++ [c],
   df.rows.map fun r => setCell r c (f r)⟩

/-- Column transformation `df[c] = g(df[c])` of an existing column. -/
def mapCol (df : DataFrame) (c : String) (g : Value → Value) : DataFrame :=
  setColWith df c fun r => g (getCell r c)

/-- Row filtering `df = df[mask]`. -/
def filterRows (df : DataFrame) (p : Row → Bool) : DataFrame :=
  ⟨df.cols, df.rows.filter p⟩

/-- The list `self.required_columns` from `ClaimsProcessor.__init__` (lines 21-23). -/
def required_columns : List String :=
  ["member_id", "age", "gender", "total_cost", "total_claims"]

/-- The list `self.optional_columns` from `ClaimsProcessor.__init__` (lines 24-27). -/
def optional_columns : List String :=
  ["diabetes", "hypertension", "heart_disease", "copd",
   "cancer", "kidney_disease", "mental_health"]

/-- The condition-flag columns cleaned by `_clean_data` (lines 102-105). -/
def condition_columns : List String :=
  ["diabetes", "hypertension", "heart_disease", "copd",
   "cancer", "kidney_disease", "mental_health"]

/-- The gender standardization dict (lines 83-86; the duplicate `'m'`/`'f'`
keys of the Python literal collapse). -/
def gender_mapping : List (String × String) :=
  [("m", "male"), ("f", "female"), ("male", "male"), ("female", "female"),
   ("1", "male"), ("0", "female")]

/-- Embeds `pd.to_numeric(col, errors='coerce')` as a cell map. -/
def coerceNumeric (v : Value) : Value :=
  match toNumericVal v with
  | some q => .num q
  | none => .null

/-- Condition-flag binarization (lines 110-111): coerce, fill `NaN` with 0,
then `(x > 0).astype(int)`. -/
def binarize (v : Value) : Value :=
  .num (if 0 < (toNumericVal v).getD 0 then 1 else 0)

/-- Member-id cleaning (lines 70-71): `astype(str).str.strip()`. -/
def cleanMemberId (df : DataFrame) : DataFrame :=
  if "member_id" ∈ df.cols then
    mapCol df "member_id" (fun v => .str (valToString v).trim)
  else df

/-- Age cleaning (lines 74-77): coerce to numeric, then keep only rows with
`0 <= age <= 120` (a `NaN` age fails both comparisons and is dropped). -/
def cleanAge (df : DataFrame) : DataFrame :=
  if "age" ∈ df.cols then
    filterRows (mapCol df "age" coerceNumeric)
      (fun r => numGE (getCell r "age") 0 && numLE (getCell r "age") 120)
  else df

/-- Gender cleaning (lines 80-87): lowercase, strip, standardize through
`gender_mapping`, unmapped values become `"unknown"`. -/
def cleanGender (df : DataFrame) : DataFrame :=
  if "gender" ∈ df.cols then
    mapCol df "gender"
      (fun v => .str ((gender_mapping.lookup ((valToString v).toLower.trim)).getD
        "unknown"))
  else df

/-- Cost cleaning (lines 90-93): coerce, then keep rows with `cost >= 0`. -/
def cleanCost (df : DataFrame) : DataFrame :=
  if "total_cost" ∈ df.cols then
    filterRows (mapCol df "total_cost" coerceNumeric)
      (fun r => numGE (getCell r "total_cost") 0)
  else df

/-- Claims-count cleaning (lines 96-99): coerce, keep rows with
`claims >= 0`. -/
def cleanClaims (df : DataFrame) : DataFrame :=
  if "total_claims" ∈ df.cols then
    filterRows (mapCol df "total_claims" coerceNumeric)
      (fun r => numGE (getCell r "total_claims") 0)
  else df

/-- Condition-flag cleaning (lines 101-111). -/
def cleanConditions (df : DataFrame) : DataFrame :=
  condition_columns.foldl
    (fun d c => if c ∈ d.cols then mapCol d c binarize else d) df

/-- Embedding of `ClaimsProcessor._clean_data` (lines 58-113). -/
def clean_data (df : DataFrame) : DataFrame :=
  cleanConditions (cleanClaims (cleanCost (cleanGender (cleanAge
    (cleanMemberId ⟨df.cols, dedupKeepFirst df.rows⟩)))))

/-- The `cost_per_claim` cell (lines 122-127):
`np.where(total_claims > 0, total_cost / total_claims, 0)`.  A `NaN` or
non-positive claim count selects the `0` branch; a positive claim count with a
`NaN` cost yields `NaN`. -/
def cpcVal (r : Row) : Value :=
  match toNumericVal (getCell r "total_claims") with
  | some q =>
      if 0 < q then
        match toNumericVal (getCell r "total_cost") with
        | some qc => .num (qc / q)
        | none => .null
      else .num 0
  | none => .num 0

def addCostPerClaim (df : DataFrame) : DataFrame :=
  if "total_cost" ∈ df.cols ∧ "total_claims" ∈ df.cols then
    setColWith df "cost_per_claim" cpcVal
  else df

/-- Embeds `pd.cut(age, bins=[0,18,35,50,65,100], labels=..., include_lowest=True)`
(lines 130-136): right-closed bins, first bin `[0, 18]`, values outside the
bins (and `NaN`) become `NaN`. -/
def cutAge (v : Value) : Value :=
  match toNumericVal v with
  | some q =>
      if 0 ≤ q ∧ q ≤ 18 then .str "0-17"
      else if q ≤ 35 then .str "18-34"
      else if q ≤ 50 then .str "35-49"
      else if q ≤ 65 then .str "50-64"
      else if q ≤ 100 then .str "65+"
      else .null
  | none => .null

def addAgeGroup (df : DataFrame) : DataFrame :=
  if "age" ∈ df.cols then
    setColWith df "age_group" (fun r => cutAge (getCell r "age"))
  else df

/-- Embeds `df[cols].sum(axis=1)` over the listed columns, skipping `NaN`. -/
def sumCols (r : Row) (cs : List String) : ℚ :=
  (cs.map fun c => (toNumericVal (getCell r c)).getD 0).sum

def chronic_conditions : List String :=
  ["diabetes", "hypertension", "heart_disease", "copd"]

def high_cost_conditions : List String :=
  ["cancer", "kidney_disease", "mental_health"]

/-- Chronic-condition count (lines 138-144): sum of the available chronic
flags, constant `0` when none of those columns exists. -/
def addChronicCount (df : DataFrame) : DataFrame :=
  let avail := chronic_conditions.filter (fun c => c ∈ df.cols)
  if avail ≠ [] then
    setColWith df "chronic_condition_count" (fun r => .num (sumCols r avail))
  else setColWith df "chronic_condition_count" (fun _ => .num 0)

/-- High-cost-condition count (lines 146-152). -/
def addHighCostCount (df : DataFrame) : DataFrame :=
  let avail := high_cost_conditions.filter (fun c => c ∈ df.cols)
  if avail ≠ [] then
    setColWith df "high_cost_condition_count" (fun r => .num (sumCols r avail))
  else setColWith df "high_cost_condition_count" (fun _ => .num 0)

/-- Total condition count (lines 154-159), over
`available_chronic + available_high_cost`. -/
def addTotalCount (df : DataFrame) : DataFrame :=
  let avail := chronic_conditions.filter (fun c => c ∈ df.cols) ++
    high_cost_conditions.filter (fun c => c ∈ df.cols)
  if avail ≠ [] then
    setColWith df "total_condition_count" (fun r => .num (sumCols r avail))
  else setColWith df "total_condition_count" (fun _ => .num 0)

/-- Insertion into a sorted list, for the quantile computation. -/
def insertSorted (x : ℚ) : List ℚ → List ℚ
  | [] => [x]
  | y :: l => if x ≤ y then x :: y :: l else y :: insertSorted x l

def sortQ (l : List ℚ) : List ℚ := l.foldr insertSorted []

/-- Embeds `Series.quantile(0.8)` with pandas' default linear interpolation on the
sorted non-`NaN` values; `none` (`NaN`) on an empty series. -/
def quantile08 (xs : List ℚ) : Option ℚ :=
  match sortQ xs with
  | [] => none
  | y :: t =>
      let n := (y :: t).length
      let pos : ℚ := (4 * ((n : ℚ) - 1)) / 5
      let i := pos.floor.toNat
      let lo := (y :: t).getD i 0
      let hi := (y :: t).getD (min (i + 1) (n - 1)) 0
      some (lo + (pos - pos.floor) * (hi - lo))

/-- The non-`NaN` numeric values of one column. -/
def colNumeric (df : DataFrame) (c : String) : List ℚ :=
  df.rows.filterMap fun r => toNumericVal (getCell r c)

/-- High-utilizer flag (lines 162-165): `claims >= quantile_0.8` as `0/1`; a
`NaN` threshold or a `NaN` cell compares `False`. -/
def addHighUtilizer (df : DataFrame) : DataFrame :=
  if "total_claims" ∈ df.cols then
    let thr := quantile08 (colNumeric df "total_claims")
    setColWith df "high_utilizer" fun r =>
      .num (match toNumericVal (getCell r "total_claims"), thr with
        | some q, some t => if t ≤ q then 1 else 0
        | _, _ => 0)
  else df

/-- High-cost-member flag (lines 167-170). -/
def addHighCostMember (df : DataFrame) : DataFrame :=
  if "total_cost" ∈ df.cols then
    let thr := quantile08 (colNumeric df "total_cost")
    setColWith df "high_cost_member" fun r =>
      .num (match toNumericVal (getCell r "total_cost"), thr with
        | some q, some t => if t ≤ q then 1 else 0
        | _, _ => 0)
  else df

/-- Elderly / young-adult flags (lines 172-175). -/
def addRiskFlags (df : DataFrame) : DataFrame :=
  if "age" ∈ df.cols then
    let d := setColWith df "elderly" fun r =>
      .num (match toNumericVal (getCell r "age") with
        | some q => if 65 ≤ q then 1 else 0
        | none => 0)
    setColWith d "young_adult" fun r =>
      .num (match toNumericVal (getCell r "age") with
        | some q => if 18 ≤ q ∧ q ≤ 35 then 1 else 0
        | none => 0)
  else df

/-- Embedding of `ClaimsProcessor._add_derived_features` (lines 115-177). -/
def add_derived_features (df : DataFrame) : DataFrame :=
  addRiskFlags (addHighCostMember (addHighUtilizer (addTotalCount
    (addHighCostCount (addChronicCount (addAgeGroup (addCostPerClaim df)))))))

/-- Whether a cell is numeric-or-missing / string-or-missing, the content
approximation of pandas column dtypes. -/
def isNumOrNull : Value → Bool
  | .num _ => true
  | .null => true
  | .str _ => false

def isStrOrNull : Value → Bool
  | .str _ => true
  | .null => true
  | .num _ => false

/-- The fill value `_handle_missing_values` uses for one column: `0` for a
numeric column, `"unknown"` for an object column, nothing otherwise. -/
def fillColValue (df : DataFrame) (c : String) : Option Value :=
  if df.rows.all (fun r => isNumOrNull (getCell r c)) then some (.num 0)
  else if df.rows.all (fun r => isStrOrNull (getCell r c)) then
    some (.str "unknown")
  else none

/-- Embedding of `ClaimsProcessor._handle_missing_values` (lines 179-197): per column,
`fillna(0)` on numeric columns and `fillna('unknown')` on object columns. -/
def handle_missing_values (df : DataFrame) : DataFrame :=
  ⟨df.cols,
   df.rows.map fun r =>
     df.cols.foldl
       (fun row c =>
         match fillColValue df c with
         | some v => if getCell row c = .null then setCell row c v else row
         | none => row) r⟩

/-- Embedding of `ClaimsProcessor.process_claims` (lines 29-56).  `_validate_data_quality`
only logs and is omitted; the `ValueError` of line 41 becomes `Except.error`.
`df.copy()` needs no counterpart here because values are immutable (the
mutation structure is modelled separately by `process_claims_store`). -/
def process_claims (df : DataFrame) : Except String DataFrame :=
  let missing := required_columns.filter (fun c => ¬ c ∈ df.cols)
  if missing ≠ [] then .error "Missing required columns"
  else .ok (handle_missing_values (add_derived_features (clean_data df)))

/-! ### The heap model of `process_claims`

`frame_effect` claims need mutation made explicit: a *store* is a list of
frames, a pandas variable is an index into it.  `df.copy()` (line 36)
allocates; `_clean_data` rebinds its local to fresh frames
(`drop_duplicates` and boolean-mask selection return new objects) and only
mutates those, so its net effect is one fresh frame;
`_add_derived_features` and `_handle_missing_values` mutate their argument
frame in place (column assignment / `fillna` on existing columns), which the
model writes back with `List.set` at that frame's index. -/

def emptyFrame : DataFrame := ⟨[], []⟩

def process_claims_store (store : List DataFrame) (ref : Nat) :
    List DataFrame × Except String Nat :=
  let df := store.getD ref emptyFrame
  let store1 := store ++ [df]
  let missing := required_columns.filter (fun c => ¬ c ∈ df.cols)
  if missing ≠ [] then (store1, .error "Missing required columns")
  else
    let ref2 := store1.length
    let store2 := store1 ++ [clean_data df]
    let store3 := store2.set ref2 (add_derived_features (store2.getD ref2 emptyFrame))
    let store4 := store3.set ref2 (handle_missing_values (store3.getD ref2 emptyFrame))
    (store4, .ok ref2)

/-! ### Cell-level lemmas -/

theorem getCell_setCell_same (r : Row) (c : String) (v : Value) :
    getCell (setCell r c v) c = v := by
  induction r with
  | nil => simp [setCell, getCell, List.lookup]
  | cons p t ih =>
    rw [setCell]
    by_cases hp : p.1 = c
    · simp [getCell, List.lookup, hp]
    · rw [if_neg hp]
      have hne : (c == p.1) = false := by
        simp only [beq_eq_false_iff_ne, ne_eq]
        exact fun hh => hp hh.symm
      simp only [getCell, List.lookup, hne]
      exact ih

theorem getCell_setCell_ne (r : Row) {c c' : String} (v : Value)
    (h : c' ≠ c) : getCell (setCell r c v) c' = getCell r c' := by
  induction r with
  | nil =>
    have hne : (c' == c) = false := by simpa using h
    simp [setCell, getCell, List.lookup, hne]
  | cons p t ih =>
    rw [setCell]
    by_cases hp : p.1 = c
    · rw [if_pos hp]
      have hne : (c' == c) = false := by simpa using h
      have hne' : (c' == p.1) = false := by rw [hp]; exact hne
      simp only [getCell, List.lookup, hne, hne']
    · rw [if_neg hp]
      by_cases hc' : c' = p.1
      · simp [getCell, List.lookup, hc']
      · have hne2 : (c' == p.1) = false := by simpa using hc'
        simp only [getCell, List.lookup, hne2]
        exact ih

theorem mem_dedupKeepFirst {α : Type} [DecidableEq α] (a : α) :
    ∀ l : List α, a ∈ dedupKeepFirst l ↔ a ∈ l := by
  intro l
  induction l with
  | nil => simp [dedupKeepFirst]
  | cons b t ih =>
    rw [dedupKeepFirst]
    constructor
    · intro h
      rcases List.mem_cons.1 h with h | h
      · exact List.mem_cons.2 (Or.inl h)
      · exact List.mem_cons.2 (Or.inr (ih.1 (List.mem_filter.1 h).1))
    · intro h
      by_cases hab : a = b
      · exact List.mem_cons.2 (Or.inl hab)
      · rcases List.mem_cons.1 h with h' | h'
        · exact absurd h' hab
        · exact List.mem_cons.2
            (Or.inr (List.mem_filter.2 ⟨ih.2 h', by simpa using hab⟩))

/-! ### Row-level view of `_clean_data`

Each cleaning stage acts rowwise (the filters) or cellwise (the column
rewrites); the following functions name the per-row effect of each stage, and
`clean_data_eq` below shows `_clean_data` is their composition. -/

/-- Member-id strip, per row. -/
def mMem (r : Row) : Row :=
  setCell r "member_id" (.str (valToString (getCell r "member_id")).trim)

/-- Age coercion, per row. -/
def mAge (r : Row) : Row := setCell r "age" (coerceNumeric (getCell r "age"))

/-- The age filter `0 <= age <= 120`. -/
def pAge (r : Row) : Bool :=
  numGE (getCell r "age") 0 && numLE (getCell r "age") 120

/-- Gender standardization, per row. -/
def mGender (r : Row) : Row :=
  setCell r "gender"
    (.str ((gender_mapping.lookup
      ((valToString (getCell r "gender")).toLower.trim)).getD "unknown"))

/-- Cost coercion, per row. -/
def mCost (r : Row) : Row :=
  setCell r "total_cost" (coerceNumeric (getCell r "total_cost"))

/-- The cost filter `total_cost >= 0`. -/
def pCost (r : Row) : Bool := numGE (getCell r "total_cost") 0

/-- Claims-count coercion, per row. -/
def mClaims (r : Row) : Row :=
  setCell r "total_claims" (coerceNumeric (getCell r "total_claims"))

/-- The claims filter `total_claims >= 0`. -/
def pClaims (r : Row) : Bool := numGE (getCell r "total_claims") 0

/-- Condition binarization over the condition columns present in `cols`. -/
def condFold (cols : List String) (r : Row) : Row :=
  condition_columns.foldl
    (fun row c =>
      if c ∈ cols then setCell row c (binarize (getCell row c)) else row) r

/-- The composite per-row transformation of `_clean_data` (when all required
columns are present). -/
def cleanTransformRow (cols : List String) (r : Row) : Row :=
  condFold cols (mClaims (mCost (mGender (mAge (mMem r)))))

/-- The conjunction of the three row filters of `_clean_data`. -/
def rowWellFormed (r : Row) : Bool := pAge r && pCost r && pClaims r

/-- The rows of `_clean_data`'s output, spelled as a map/filter chain. -/
def cleanRows (cols : List String) (rows : List Row) : List Row :=
  List.map (condFold cols)
    (List.filter pClaims
      (List.map mClaims
        (List.filter pCost
          (List.map mCost
            (List.map mGender
              (List.filter pAge
                (List.map mAge
                  (List.map mMem (dedupKeepFirst rows)))))))))

theorem mapCol_eq (cols : List String) (rows : List Row) (c : String)
    (g : Value → Value) (h : c ∈ cols) :
    mapCol ⟨cols, rows⟩ c g =
      ⟨cols, rows.map fun r => setCell r c (g (getCell r c))⟩ := by
  unfold mapCol setColWith
  rw [if_pos h]

theorem cleanMemberId_eq (cols : List String) (rows : List Row)
    (h : "member_id" ∈ cols) :
    cleanMemberId ⟨cols, rows⟩ = ⟨cols, rows.map mMem⟩ := by
  unfold cleanMemberId
  rw [if_pos h, mapCol_eq cols rows _ _ h]
  rfl

theorem cleanAge_eq (cols : List String) (rows : List Row)
    (h : "age" ∈ cols) :
    cleanAge ⟨cols, rows⟩ = ⟨cols, (rows.map mAge).filter pAge⟩ := by
  unfold cleanAge
  rw [if_pos h, mapCol_eq cols rows _ _ h]
  rfl

theorem cleanGender_eq (cols : List String) (rows : List Row)
    (h : "gender" ∈ cols) :
    cleanGender ⟨cols, rows⟩ = ⟨cols, rows.map mGender⟩ := by
  unfold cleanGender
  rw [if_pos h, mapCol_eq cols rows _ _ h]
  rfl

theorem cleanCost_eq (cols : List String) (rows : List Row)
    (h : "total_cost" ∈ cols) :
    cleanCost ⟨cols, rows⟩ = ⟨cols, (rows.map mCost).filter pCost⟩ := by
  unfold cleanCost
  rw [if_pos h, mapCol_eq cols rows _ _ h]
  rfl

theorem cleanClaims_eq (cols : List String) (rows : List Row)
    (h : "total_claims" ∈ cols) :
    cleanClaims ⟨cols, rows⟩ = ⟨cols, (rows.map mClaims).filter pClaims⟩ := by
  unfold cleanClaims
  rw [if_pos h, mapCol_eq cols rows _ _ h]
  rfl

theorem foldl_conditions_eq (cs : List String) :
    ∀ (cols : List String) (rows : List Row),
      cs.foldl (fun d c => if c ∈ d.cols then mapCol d c binarize else d)
        ⟨cols, rows⟩ =
      ⟨cols,
        rows.map fun r =>
          cs.foldl
            (fun row c =>
              if c ∈ cols then setCell row c (binarize (getCell row c))
              else row) r⟩ := by
  induction cs with
  | nil => intro cols rows; simp
  | cons c cs' ih =>
    intro cols rows
    rw [List.foldl_cons]
    by_cases hc : c ∈ cols
    · rw [if_pos (by simpa using hc), mapCol_eq cols rows c binarize hc,
        ih cols _, List.map_map]
      refine congrArg (DataFrame.mk cols) ?_
      refine List.map_congr_left fun r _ => ?_
      simp only [Function.comp_apply, List.foldl_cons, if_pos hc]
    · rw [if_neg (by simpa using hc), ih cols rows]
      refine congrArg (DataFrame.mk cols) ?_
      refine List.map_congr_left fun r _ => ?_
      rw [List.foldl_cons, if_neg hc]

theorem cleanConditions_eq (cols : List String) (rows : List Row) :
    cleanConditions ⟨cols, rows⟩ = ⟨cols, rows.map (condFold cols)⟩ :=
  foldl_conditions_eq condition_columns cols rows

/-- Frame-level equation: `_clean_data` equals the row-level pipeline, when the
required columns are present. -/
theorem clean_data_eq (df : DataFrame)
    (hreq : ∀ c ∈ required_columns, c ∈ df.cols) :
    clean_data df = ⟨df.cols, cleanRows df.cols df.rows⟩ := by
  have hm : "member_id" ∈ df.cols := hreq _ (by decide)
  have ha : "age" ∈ df.cols := hreq _ (by decide)
  have hg : "gender" ∈ df.cols := hreq _ (by decide)
  have hc : "total_cost" ∈ df.cols := hreq _ (by decide)
  have hn : "total_claims" ∈ df.cols := hreq _ (by decide)
  unfold clean_data cleanRows
  rw [cleanMemberId_eq df.cols (dedupKeepFirst df.rows) hm]
  rw [cleanAge_eq df.cols _ ha]
  rw [cleanGender_eq df.cols _ hg]
  rw [cleanCost_eq df.cols _ hc]
  rw [cleanClaims_eq df.cols _ hn]
  rw [cleanConditions_eq df.cols _]

theorem getCell_foldl_cols_ne (cols : List String) (c : String) :
    ∀ (cs : List String) (r : Row), ¬ c ∈ cs →
      getCell
        (cs.foldl
          (fun row c' =>
            if c' ∈ cols then setCell row c' (binarize (getCell row c'))
            else row) r) c = getCell r c := by
  intro cs
  induction cs with
  | nil => intro r _; rfl
  | cons c' cs' ih =>
    intro r hc
    rw [List.foldl_cons]
    have hne : c ≠ c' := fun hh => hc (hh ▸ List.mem_cons_self c' cs')
    have hnot : ¬ c ∈ cs' := fun hh => hc (List.mem_cons.2 (Or.inr hh))
    by_cases hmem : c' ∈ cols
    · rw [if_pos hmem, ih _ hnot, getCell_setCell_ne _ _ hne]
    · rw [if_neg hmem, ih _ hnot]

theorem getCell_condFold_ne (cols : List String) (r : Row) (c : String)
    (hc : ¬ c ∈ condition_columns) :
    getCell (condFold cols r) c = getCell r c :=
  getCell_foldl_cols_ne cols c condition_columns r hc

/-- The final age cell of one transformed row is fixed at the age stage. -/
theorem ctr_age (cols : List String) (r : Row) :
    getCell (cleanTransformRow cols r) "age" =
      getCell (mAge (mMem r)) "age" := by
  unfold cleanTransformRow
  rw [getCell_condFold_ne _ _ _ (by decide)]
  unfold mClaims mCost mGender
  rw [getCell_setCell_ne _ _ (by decide), getCell_setCell_ne _ _ (by decide),
    getCell_setCell_ne _ _ (by decide)]

/-- The final cost cell of one transformed row is fixed at the cost stage. -/
theorem ctr_cost (cols : List String) (r : Row) :
    getCell (cleanTransformRow cols r) "total_cost" =
      getCell (mCost (mGender (mAge (mMem r)))) "total_cost" := by
  unfold cleanTransformRow
  rw [getCell_condFold_ne _ _ _ (by decide)]
  unfold mClaims
  rw [getCell_setCell_ne _ _ (by decide)]

/-- The final claims cell of one transformed row is fixed at the claims
stage. -/
theorem ctr_claims (cols : List String) (r : Row) :
    getCell (cleanTransformRow cols r) "total_claims" =
      getCell (mClaims (mCost (mGender (mAge (mMem r))))) "total_claims" := by
  unfold cleanTransformRow
  rw [getCell_condFold_ne _ _ _ (by decide)]

theorem pAge_congr {r1 r2 : Row} (h : getCell r1 "age" = getCell r2 "age") :
    pAge r1 = pAge r2 := by
  unfold pAge
  rw [h]

theorem pCost_congr {r1 r2 : Row}
    (h : getCell r1 "total_cost" = getCell r2 "total_cost") :
    pCost r1 = pCost r2 := by
  unfold pCost
  rw [h]

theorem pClaims_congr {r1 r2 : Row}
    (h : getCell r1 "total_claims" = getCell r2 "total_claims") :
    pClaims r1 = pClaims r2 := by
  unfold pClaims
  rw [h]

/-- Membership in the cleaned rows: exactly the transformed rows of the
deduplicated input that pass all three filters. -/
theorem cleanRows_mem (cols : List String) (rows : List Row) (r' : Row) :
    r' ∈ cleanRows cols rows ↔
      ∃ r ∈ dedupKeepFirst rows,
        r' = cleanTransformRow cols r ∧ rowWellFormed r' = true := by
  constructor
  · intro h
    unfold cleanRows at h
    obtain ⟨a5, h5, rfl⟩ := List.mem_map.1 h
    obtain ⟨h5m, hp5⟩ := List.mem_filter.1 h5
    obtain ⟨a4, h4, rfl⟩ := List.mem_map.1 h5m
    obtain ⟨h4m, hp4⟩ := List.mem_filter.1 h4
    obtain ⟨a3, h3, rfl⟩ := List.mem_map.1 h4m
    obtain ⟨a2, h2, rfl⟩ := List.mem_map.1 h3
    obtain ⟨h2m, hp2⟩ := List.mem_filter.1 h2
    obtain ⟨a1, h1, rfl⟩ := List.mem_map.1 h2m
    obtain ⟨a0, h0, rfl⟩ := List.mem_map.1 h1
    refine ⟨a0, h0, rfl, ?_⟩
    unfold rowWellFormed
    show (pAge (cleanTransformRow cols a0) && pCost (cleanTransformRow cols a0)
      && pClaims (cleanTransformRow cols a0)) = true
    rw [pAge_congr (ctr_age cols a0), pCost_congr (ctr_cost cols a0),
      pClaims_congr (ctr_claims cols a0)]
    simp [hp2, hp4, hp5]
  · rintro ⟨r, hr, rfl, hwf⟩
    unfold rowWellFormed at hwf
    rw [pAge_congr (ctr_age cols r), pCost_congr (ctr_cost cols r),
      pClaims_congr (ctr_claims cols r)] at hwf
    simp only [Bool.and_eq_true] at hwf
    obtain ⟨⟨hp2, hp4⟩, hp5⟩ := hwf
    unfold cleanRows
    refine List.mem_map.2 ⟨mClaims (mCost (mGender (mAge (mMem r)))), ?_, rfl⟩
    refine List.mem_filter.2 ⟨?_, hp5⟩
    refine List.mem_map.2 ⟨mCost (mGender (mAge (mMem r))), ?_, rfl⟩
    refine List.mem_filter.2 ⟨?_, hp4⟩
    refine List.mem_map.2 ⟨mGender (mAge (mMem r)), ?_, rfl⟩
    refine List.mem_map.2 ⟨mAge (mMem r), ?_, rfl⟩
    refine List.mem_filter.2 ⟨?_, hp2⟩
    refine List.mem_map.2 ⟨mMem r, ?_, rfl⟩
    exact List.mem_map.2 ⟨r, hr, rfl⟩

/-! ### Cell preservation through `_add_derived_features` and
`_handle_missing_values` -/

/-- The columns written by the derived-feature steps after `cost_per_claim`. -/
def derivedTail : List String :=
  ["age_group", "chronic_condition_count", "high_cost_condition_count",
   "total_condition_count", "high_utilizer", "high_cost_member", "elderly",
   "young_adult"]

/-- Every row of `df'` is a row of `df` with only columns in `S` rewritten. -/
def preservesOutside (S : List String) (df df' : DataFrame) : Prop :=
  ∀ r' ∈ df'.rows, ∃ r ∈ df.rows, ∀ c, ¬ c ∈ S → getCell r' c = getCell r c

theorem po_refl (S : List String) (df : DataFrame) :
    preservesOutside S df df :=
  fun r' h => ⟨r', h, fun _ _ => rfl⟩

theorem po_trans {S : List String} {df1 df2 df3 : DataFrame}
    (h12 : preservesOutside S df1 df2) (h23 : preservesOutside S df2 df3) :
    preservesOutside S df1 df3 := by
  intro r3 h3
  obtain ⟨r2, h2, e23⟩ := h23 r3 h3
  obtain ⟨r1, h1, e12⟩ := h12 r2 h2
  exact ⟨r1, h1, fun c hc => (e23 c hc).trans (e12 c hc)⟩

theorem po_setColWith (S : List String) (df : DataFrame) (c0 : String)
    (f : Row → Value) (hc : c0 ∈ S) :
    preservesOutside S df (setColWith df c0 f) := by
  intro r' h'
  obtain ⟨r, hr, rfl⟩ := List.mem_map.1 h'
  refine ⟨r, hr, fun c hcS => ?_⟩
  exact getCell_setCell_ne r _ fun hh => hcS (hh ▸ hc)

theorem po_addAgeGroup (df : DataFrame) :
    preservesOutside derivedTail df (addAgeGroup df) := by
  unfold addAgeGroup
  by_cases h : "age" ∈ df.cols
  · rw [if_pos h]
    exact po_setColWith _ _ _ _ (by decide)
  · rw [if_neg h]
    exact po_refl _ _

theorem po_addChronicCount (df : DataFrame) :
    preservesOutside derivedTail df (addChronicCount df) := by
  unfold addChronicCount
  by_cases h : chronic_conditions.filter (fun c => c ∈ df.cols) ≠ []
  · rw [if_pos (by simpa using h)]
    exact po_setColWith _ _ _ _ (by decide)
  · rw [if_neg (by simpa using h)]
    exact po_setColWith _ _ _ _ (by decide)

theorem po_addHighCostCount (df : DataFrame) :
    preservesOutside derivedTail df (addHighCostCount df) := by
  unfold addHighCostCount
  by_cases h : high_cost_conditions.filter (fun c => c ∈ df.cols) ≠ []
  · rw [if_pos (by simpa using h)]
    exact po_setColWith _ _ _ _ (by decide)
  · rw [if_neg (by simpa using h)]
    exact po_setColWith _ _ _ _ (by decide)

theorem po_addTotalCount (df : DataFrame) :
    preservesOutside derivedTail df (addTotalCount df) := by
  unfold addTotalCount
  by_cases h : chronic_conditions.filter (fun c => c ∈ df.cols) ++
      high_cost_conditions.filter (fun c => c ∈ df.cols) ≠ []
  · rw [if_pos (by simpa using h)]
    exact po_setColWith _ _ _ _ (by decide)
  · rw [if_neg (by simpa using h)]
    exact po_setColWith _ _ _ _ (by decide)

theorem po_addHighUtilizer (df : DataFrame) :
    preservesOutside derivedTail df (addHighUtilizer df) := by
  unfold addHighUtilizer
  by_cases h : "total_claims" ∈ df.cols
  · rw [if_pos h]
    exact po_setColWith _ _ _ _ (by decide)
  · rw [if_neg h]
    exact po_refl _ _

theorem po_addHighCostMember (df : DataFrame) :
    preservesOutside derivedTail df (addHighCostMember df) := by
  unfold addHighCostMember
  by_cases h : "total_cost" ∈ df.cols
  · rw [if_pos h]
    exact po_setColWith _ _ _ _ (by decide)
  · rw [if_neg h]
    exact po_refl _ _

theorem po_addRiskFlags (df : DataFrame) :
    preservesOutside derivedTail df (addRiskFlags df) := by
  unfold addRiskFlags
  by_cases h : "age" ∈ df.cols
  · rw [if_pos h]
    exact po_trans (po_setColWith _ _ "elderly" _ (by decide))
      (po_setColWith _ _ "young_adult" _ (by decide))
  · rw [if_neg h]
    exact po_refl _ _

/-- All derived-feature steps after the `cost_per_claim` assignment touch
only the `derivedTail` columns. -/
theorem po_derivedTail (df : DataFrame) :
    preservesOutside derivedTail df
      (addRiskFlags (addHighCostMember (addHighUtilizer (addTotalCount
        (addHighCostCount (addChronicCount (addAgeGroup df))))))) :=
  po_trans (po_addAgeGroup df)
    (po_trans (po_addChronicCount _)
      (po_trans (po_addHighCostCount _)
        (po_trans (po_addTotalCount _)
          (po_trans (po_addHighUtilizer _)
            (po_trans (po_addHighCostMember _) (po_addRiskFlags _))))))

theorem addCostPerClaim_rows (df : DataFrame) (h1 : "total_cost" ∈ df.cols)
    (h2 : "total_claims" ∈ df.cols) :
    (addCostPerClaim df).rows =
      df.rows.map fun r => setCell r "cost_per_claim" (cpcVal r) := by
  unfold addCostPerClaim setColWith
  rw [if_pos ⟨h1, h2⟩]

/-- Fills of `_handle_missing_values` never change a cell that is already
non-missing. -/
theorem getCell_fillFold (df : DataFrame) :
    ∀ (cs : List String) (r : Row) (c : String), getCell r c ≠ .null →
      getCell
        (cs.foldl
          (fun row c' =>
            match fillColValue df c' with
            | some v =>
                if getCell row c' = .null then setCell row c' v else row
            | none => row) r) c = getCell r c := by
  intro cs
  induction cs with
  | nil => intro r c _; rfl
  | cons c' cs' ih =>
    intro r c hc
    rw [List.foldl_cons]
    cases hfill : fillColValue df c' with
    | none =>
      simp only [hfill]
      exact ih r c hc
    | some v =>
      simp only [hfill]
      by_cases hnull : getCell r c' = .null
      · rw [if_pos hnull]
        have hne : c ≠ c' := fun hh => hc (hh ▸ hnull)
        have hkeep : getCell (setCell r c' v) c = getCell r c :=
          getCell_setCell_ne r _ hne
        rw [ih _ c (by rw [hkeep]; exact hc), hkeep]
      · rw [if_neg hnull]
        exact ih r c hc

theorem handle_missing_preserves (df : DataFrame) :
    ∀ r' ∈ (handle_missing_values df).rows,
      ∃ r ∈ df.rows, ∀ c, getCell r c ≠ .null → getCell r' c = getCell r c := by
  intro r' h'
  unfold handle_missing_values at h'
  obtain ⟨r, hr, rfl⟩ := List.mem_map.1 h'
  exact ⟨r, hr, fun c hc => getCell_fillFold df df.cols r c hc⟩

theorem numGE_true {v : Value} {b : ℚ} (h : numGE v b = true) :
    ∃ q, v = .num q ∧ b ≤ q := by
  cases v with
  | num q => exact ⟨q, rfl, by simpa [numGE, toNumericVal] using h⟩
  | str s => simp [numGE, toNumericVal] at h
  | null => simp [numGE, toNumericVal] at h

theorem numLE_true {v : Value} {b : ℚ} (h : numLE v b = true) :
    ∃ q, v = .num q ∧ q ≤ b := by
  cases v with
  | num q => exact ⟨q, rfl, by simpa [numLE, toNumericVal] using h⟩
  | str s => simp [numLE, toNumericVal] at h
  | null => simp [numLE, toNumericVal] at h

theorem cpcVal_eq {r : Row} {qn qc : ℚ}
    (hn : getCell r "total_claims" = .num qn)
    (hc : getCell r "total_cost" = .num qc) :
    cpcVal r = .num (if 0 < qn then qc / qn else 0) := by
  unfold cpcVal
  rw [hn, hc]
  simp only [toNumericVal]
  by_cases h : 0 < qn
  · rw [if_pos h, if_pos h]
  · rw [if_neg h, if_neg h]

/-- The shape of one fully processed row: age, cost and claims cells are
in-range numbers, and `cost_per_claim` is the guarded quotient computed from
the very cost and claims cells of the same row. -/
theorem processed_row_shape (df : DataFrame)
    (hreq : ∀ c ∈ required_columns, c ∈ df.cols) :
    ∀ r' ∈ (handle_missing_values (add_derived_features (clean_data df))).rows,
      ∃ qa qc qn : ℚ,
        getCell r' "age" = .num qa ∧ 0 ≤ qa ∧ qa ≤ 120 ∧
        getCell r' "total_cost" = .num qc ∧ 0 ≤ qc ∧
        getCell r' "total_claims" = .num qn ∧ 0 ≤ qn ∧
        getCell r' "cost_per_claim" = .num (if 0 < qn then qc / qn else 0) := by
  intro r' hr'
  obtain ⟨rd, hrd, efill⟩ :=
    handle_missing_preserves (add_derived_features (clean_data df)) r' hr'
  have hclean := clean_data_eq df hreq
  have hcols : (clean_data df).cols = df.cols := by rw [hclean]
  obtain ⟨r1, hr1, etail⟩ :=
    po_derivedTail (addCostPerClaim (clean_data df)) rd hrd
  have hcostcol : "total_cost" ∈ (clean_data df).cols := by
    rw [hcols]; exact hreq _ (by decide)
  have hclaimcol : "total_claims" ∈ (clean_data df).cols := by
    rw [hcols]; exact hreq _ (by decide)
  rw [addCostPerClaim_rows (clean_data df) hcostcol hclaimcol] at hr1
  obtain ⟨rc, hrc, rfl⟩ := List.mem_map.1 hr1
  have hrc' : rc ∈ cleanRows df.cols df.rows := by
    have := hrc
    rw [hclean] at this
    exact this
  obtain ⟨r0, -, -, hwf⟩ := (cleanRows_mem df.cols df.rows rc).1 hrc'
  unfold rowWellFormed at hwf
  simp only [Bool.and_eq_true] at hwf
  obtain ⟨⟨hpa, hpc⟩, hpn⟩ := hwf
  unfold pAge at hpa
  rw [Bool.and_eq_true] at hpa
  obtain ⟨qa, hage, hqa0⟩ := numGE_true hpa.1
  obtain ⟨qa', hage', hqa120⟩ := numLE_true hpa.2
  rw [hage] at hage'
  injection hage' with e
  subst e
  unfold pCost at hpc
  obtain ⟨qc, hcost, hqc0⟩ := numGE_true hpc
  unfold pClaims at hpn
  obtain ⟨qn, hclaims, hqn0⟩ := numGE_true hpn
  have e1age : getCell (setCell rc "cost_per_claim" (cpcVal rc)) "age" =
      .num qa := by
    rw [getCell_setCell_ne rc _ (by decide), hage]
  have e1cost :
      getCell (setCell rc "cost_per_claim" (cpcVal rc)) "total_cost" =
        .num qc := by
    rw [getCell_setCell_ne rc _ (by decide), hcost]
  have e1claims :
      getCell (setCell rc "cost_per_claim" (cpcVal rc)) "total_claims" =
        .num qn := by
    rw [getCell_setCell_ne rc _ (by decide), hclaims]
  have e1cpc :
      getCell (setCell rc "cost_per_claim" (cpcVal rc)) "cost_per_claim" =
        .num (if 0 < qn then qc / qn else 0) := by
    rw [getCell_setCell_same, cpcVal_eq hclaims hcost]
  have edage : getCell rd "age" = .num qa := by
    rw [etail "age" (by decide), e1age]
  have edcost : getCell rd "total_cost" = .num qc := by
    rw [etail "total_cost" (by decide), e1cost]
  have edclaims : getCell rd "total_claims" = .num qn := by
    rw [etail "total_claims" (by decide), e1claims]
  have edcpc : getCell rd "cost_per_claim" =
      .num (if 0 < qn then qc / qn else 0) := by
    rw [etail "cost_per_claim" (by decide), e1cpc]
  refine ⟨qa, qc, qn, ?_, hqa0, hqa120, ?_, hqc0, ?_, hqn0, ?_⟩
  · rw [efill "age" (by rw [edage]; simp), edage]
  · rw [efill "total_cost" (by rw [edcost]; simp), edcost]
  · rw [efill "total_claims" (by rw [edclaims]; simp), edclaims]
  · rw [efill "cost_per_claim" (by rw [edcpc]; simp), edcpc]

/-! ### Claim C7: schema failure exactly on missing required columns -/

theorem required_not_optional :
    ∀ c ∈ required_columns, ¬ c ∈ optional_columns := by decide

/-- C7: `process_claims` fails (with the schema `ValueError`) precisely when
some required column is absent, and stripping every optional condition column
from a frame that has the required ones still succeeds. -/
theorem C7_schema_failure (df : DataFrame) :
    ((∃ e, process_claims df = .error e) ↔
      ∃ c ∈ required_columns, ¬ c ∈ df.cols) ∧
    ((∀ c ∈ required_columns, c ∈ df.cols) →
      ∃ out,
        process_claims
          ⟨df.cols.filter (fun c => ¬ c ∈ optional_columns), df.rows⟩ =
          .ok out) := by
  constructor
  · unfold process_claims
    by_cases hm : required_columns.filter (fun c => ¬ c ∈ df.cols) = []
    · rw [if_neg (by simpa using hm)]
      simp only [reduceCtorEq, exists_false, false_iff, not_exists, not_and]
      intro c hc
      have := List.filter_eq_nil_iff.1 hm c hc
      simpa using this
    · rw [if_pos (by simpa using hm)]
      constructor
      · intro _
        obtain ⟨c, hc⟩ := List.exists_mem_of_ne_nil _ hm
        have := List.mem_filter.1 hc
        exact ⟨c, this.1, by simpa using this.2⟩
      · intro _
        exact ⟨"Missing required columns", rfl⟩
  · intro hall
    unfold process_claims
    have hnil :
        required_columns.filter
          (fun c => ¬ c ∈
            (DataFrame.mk (df.cols.filter (fun c => ¬ c ∈ optional_columns))
              df.rows).cols) = [] := by
      rw [List.filter_eq_nil_iff]
      intro c hc
      simp only [decide_eq_true_eq, not_not]
      exact List.mem_filter.2 ⟨hall c hc, by simpa using required_not_optional c hc⟩
    rw [if_neg (by simpa using hnil)]
    exact ⟨_, rfl⟩

/-- An input frame with the required columns, one well-formed row and one row
whose age 150 is outside `[0, 120]`. -/
def exampleDf : DataFrame :=
  ⟨["member_id", "age", "gender", "total_cost", "total_claims"],
   [[("member_id", .str "A1"), ("age", .num 40), ("gender", .str "M"),
     ("total_cost", .num 1000), ("total_claims", .num 4)],
    [("member_id", .str "A2"), ("age", .num 150), ("gender", .str "F"),
     ("total_cost", .num 500), ("total_claims", .num 2)]]⟩

/-- The processed output of `exampleDf`. -/
def exampleOut : DataFrame :=
  match process_claims exampleDf with
  | .ok d => d
  | .error _ => emptyFrame

/-- Witness for C7: a frame with the required columns and none of the
optional condition columns still processes successfully. -/
theorem C7_schema_failure_witness :
    ∃ out,
      process_claims
        ⟨exampleDf.cols.filter (fun c => ¬ c ∈ optional_columns),
          exampleDf.rows⟩ = .ok out :=
  (C7_schema_failure exampleDf).2 (by decide)

/-- C8: on any input with the required columns, `process_claims` succeeds
(rows with negative cost, negative claims, or out-of-range age never abort the
call), every surviving row has its age in `[0, 120]` and non-negative cost and
claims, and the cleaning stage keeps exactly the transformed rows that pass
the three well-formedness filters. -/
theorem C8_bad_rows_dropped (df : DataFrame)
    (hreq : ∀ c ∈ required_columns, c ∈ df.cols) :
    (∃ out, process_claims df = .ok out ∧
      ∀ r' ∈ out.rows,
        (∃ q : ℚ, getCell r' "age" = .num q ∧ 0 ≤ q ∧ q ≤ 120) ∧
        (∃ q : ℚ, getCell r' "total_cost" = .num q ∧ 0 ≤ q) ∧
        (∃ q : ℚ, getCell r' "total_claims" = .num q ∧ 0 ≤ q)) ∧
    (∀ r', r' ∈ (clean_data df).rows ↔
      ∃ r ∈ dedupKeepFirst df.rows,
        r' = cleanTransformRow df.cols r ∧ rowWellFormed r' = true) := by
  have hnil : required_columns.filter (fun c => ¬ c ∈ df.cols) = [] := by
    rw [List.filter_eq_nil_iff]
    intro c hc
    simpa using hreq c hc
  constructor
  · refine ⟨handle_missing_values (add_derived_features (clean_data df)),
      ?_, ?_⟩
    · unfold process_claims
      rw [if_neg (by simpa using hnil)]
    · intro r' hr'
      obtain ⟨qa, qc, qn, h1, h2, h3, h4, h5, h6, h7, -⟩ :=
        processed_row_shape df hreq r' hr'
      exact ⟨⟨qa, h1, h2, h3⟩, ⟨qc, h4, h5⟩, ⟨qn, h6, h7⟩⟩
  · intro r'
    rw [clean_data_eq df hreq]
    exact cleanRows_mem df.cols df.rows r'

/-- Witness for C8 at `exampleDf`. -/
theorem C8_bad_rows_dropped_witness :
    ∃ out, process_claims exampleDf = .ok out ∧
      ∀ r' ∈ out.rows,
        (∃ q : ℚ, getCell r' "age" = .num q ∧ 0 ≤ q ∧ q ≤ 120) ∧
        (∃ q : ℚ, getCell r' "total_cost" = .num q ∧ 0 ≤ q) ∧
        (∃ q : ℚ, getCell r' "total_claims" = .num q ∧ 0 ≤ q) :=
  (C8_bad_rows_dropped exampleDf (by decide)).1

/-- C6: in every successfully processed frame, each row's `cost_per_claim`
equals `0` when `total_claims` is `0` (a number, not `NaN`), whatever the
cost, and equals `total_cost / total_claims` otherwise. -/
theorem C6_cost_per_claim (df out : DataFrame)
    (h : process_claims df = .ok out) :
    ∀ r ∈ out.rows,
      (getCell r "total_claims" = .num 0 →
        getCell r "cost_per_claim" = .num 0) ∧
      (∀ qn qc : ℚ, getCell r "total_claims" = .num qn → qn ≠ 0 →
        getCell r "total_cost" = .num qc →
        getCell r "cost_per_claim" = .num (qc / qn)) := by
  have hreq : ∀ c ∈ required_columns, c ∈ df.cols := by
    by_contra hnot
    push_neg at hnot
    obtain ⟨c, hc, hcm⟩ := hnot
    have hne : required_columns.filter (fun c => ¬ c ∈ df.cols) ≠ [] := by
      intro hnil
      have h2 := List.filter_eq_nil_iff.1 hnil c hc
      simp only [decide_eq_true_eq, not_not] at h2
      exact hcm h2
    unfold process_claims at h
    rw [if_pos (by simpa using hne)] at h
    exact Except.noConfusion h
  have hnil : required_columns.filter (fun c => ¬ c ∈ df.cols) = [] := by
    rw [List.filter_eq_nil_iff]
    intro c hc
    simpa using hreq c hc
  unfold process_claims at h
  rw [if_neg (by simpa using hnil)] at h
  injection h with hout
  subst hout
  intro r hr
  obtain ⟨qa, qc0, qn0, -, -, -, hcost, -, hclaims, hq4, hcpc⟩ :=
    processed_row_shape df hreq r hr
  constructor
  · intro h0
    rw [hclaims] at h0
    injection h0 with e
    subst e
    rw [hcpc]
    simp
  · intro qn qc hqn hne hqc
    rw [hclaims] at hqn
    injection hqn with e1
    rw [hcost] at hqc
    injection hqc with e2
    subst e1
    subst e2
    have hpos : 0 < qn0 := lt_of_le_of_ne hq4 (Ne.symm hne)
    rw [hcpc, if_pos hpos]

/-- The first row of the processed example frame (4 claims, cost 1000). -/
def exampleRow0 : Row := exampleOut.rows.getD 0 []

/-- Witness for C6 at the concrete processed frame of `exampleDf`: the
surviving row has 4 claims and cost 1000, so its `cost_per_claim` is their
quotient. -/
theorem C6_cost_per_claim_witness :
    getCell exampleRow0 "cost_per_claim" = .num (1000 / 4) :=
  (C6_cost_per_claim exampleDf exampleOut (by with_unfolding_all rfl)
      exampleRow0 (by with_unfolding_all decide)).2 4 1000
    (by with_unfolding_all rfl) (by norm_num) (by with_unfolding_all rfl)

/-! ### Claim C10: the caller's frame is never mutated -/

/-- C10: in the heap model, `process_claims` leaves every pre-existing frame
of the store — in particular the caller's argument frame — unchanged: all its
writes go to freshly allocated frames. -/
theorem C10_no_mutation (store : List DataFrame) (ref i : Nat)
    (hi : i < store.length) :
    (process_claims_store store ref).1.getD i emptyFrame =
      store.getD i emptyFrame := by
  have happ : ∀ (l l' : List DataFrame), i < l.length →
      (l ++ l').getD i emptyFrame = l.getD i emptyFrame := by
    intro l l' hlt
    rw [List.getD_eq_getElem?_getD, List.getD_eq_getElem?_getD,
      List.getElem?_append_left hlt]
  have hset : ∀ (l : List DataFrame) (j : Nat) (x : DataFrame), i ≠ j →
      (l.set j x).getD i emptyFrame = l.getD i emptyFrame := by
    intro l j x hne
    rw [List.getD_eq_getElem?_getD, List.getD_eq_getElem?_getD,
      List.getElem?_set_ne (fun hh => hne hh.symm)]
  unfold process_claims_store
  by_cases hm :
      required_columns.filter
        (fun c => ¬ c ∈ (store.getD ref emptyFrame).cols) = []
  · rw [if_neg (by simpa using hm)]
    have h1 : i < (store ++ [store.getD ref emptyFrame]).length := by
      rw [List.length_append]
      omega
    have h2 : i <
        ((store ++ [store.getD ref emptyFrame]) ++
          [clean_data (store.getD ref emptyFrame)]).length := by
      rw [List.length_append, List.length_append]
      omega
    have hne : i ≠ (store ++ [store.getD ref emptyFrame]).length := by
      rw [List.length_append]
      omega
    rw [hset _ _ _ hne, hset _ _ _ hne, happ _ _ h1, happ _ _ hi]
  · rw [if_pos (by simpa using hm)]
    exact happ _ _ hi

/-- Witness for C10 at a one-frame store. -/
theorem C10_no_mutation_witness :
    (process_claims_store [exampleDf] 0).1.getD 0 emptyFrame =
      [exampleDf].getD 0 emptyFrame :=
  C10_no_mutation [exampleDf] 0 0 (by decide)

end ClaimsProcessor
